import Mathlib

/-
Verification development for the Voronoi mesh-splitting program
(`mesh_voronoi.py`).  The tessellation core `voronoi_tessellate_mesh` is
embedded shallowly: 3D points are triples of reals, library calls
(trimesh / scipy / manifold) that the script treats as black boxes are
modelled as oracle parameters, exceptions become `Option`, and the
`while` rejection-sampling loop is given explicit fuel.  All arithmetic
formulas (`2*(pj-pi)`, the scale-aware epsilon shift, the AABB
half-spaces) are transcribed directly from the source.
-/

noncomputable section

/-- A 3D point / vector with real coordinates (models a row of a numpy
`(·,3)` float array). -/
@[ext]
structure Vec3 where
  x : ℝ
  y : ℝ
  z : ℝ

namespace Vec3

def add (a b : Vec3) : Vec3 := ⟨a.x + b.x, a.y + b.y, a.z + b.z⟩

def sub (a b : Vec3) : Vec3 := ⟨a.x - b.x, a.y - b.y, a.z - b.z⟩

/-- Componentwise product (models `candidates * box_size` broadcasting). -/
def hprod (a b : Vec3) : Vec3 := ⟨a.x * b.x, a.y * b.y, a.z * b.z⟩

/-- Scalar multiple (models `2.0 * (pj - pi)`). -/
def scale (r : ℝ) (a : Vec3) : Vec3 := ⟨r * a.x, r * a.y, r * a.z⟩

/-- Dot product (models `np.dot`). -/
def dot (a b : Vec3) : ℝ := a.x * b.x + a.y * b.y + a.z * b.z

/-- Euclidean norm (models `np.linalg.norm`). -/
def norm (a : Vec3) : ℝ := Real.sqrt (dot a a)

/-- Componentwise `≤` on points. -/
def vle (a b : Vec3) : Prop := a.x ≤ b.x ∧ a.y ≤ b.y ∧ a.z ≤ b.z

/-- Componentwise `<` on points. -/
def vlt (a b : Vec3) : Prop := a.x < b.x ∧ a.y < b.y ∧ a.z < b.z

end Vec3

/-- `np.finfo(float).eps` for IEEE-754 double precision, i.e. `2 ^ (-52)`,
modelled exactly as a real number. -/
def machineEps : ℝ := 1 / 2 ^ 52

/-- A half-space `a · x + d ≤ 0` (one row `[a_x, a_y, a_z, d]` of the
`halfspaces` array in the source). -/
structure HalfSpace where
  a : Vec3
  d : ℝ

/-- Value of the affine form `a · x + d` of a half-space at a point;
the half-space constraint holds at `p` iff this is `≤ 0`. -/
def evalHS (h : HalfSpace) (p : Vec3) : ℝ := Vec3.dot h.a p + h.d

/-- Bisector normal, from the source: `a = 2.0 * (pj - pi)`. -/
def bisA (p q : Vec3) : Vec3 := Vec3.scale 2 (Vec3.sub q p)

/-- Unbiased bisector offset, from the source:
`d = -(np.dot(pj, pj) - np.dot(pi, pi))`. -/
def bisD (p q : Vec3) : ℝ := -(Vec3.dot q q - Vec3.dot p p)

/-- Scale-aware epsilon shift, from the source:
`scale = np.linalg.norm(a) * max_extent + abs(d)`; `eps = 1e4 * mach * scale`. -/
def bisEps (maxExt : ℝ) (p q : Vec3) : ℝ :=
  10000 * machineEps * (Vec3.norm (bisA p q) * maxExt + |bisD p q|)

/-- The biased bisector half-space the source appends for the pair
`(pi, pj)`: row `[a[0], a[1], a[2], d - eps]`. -/
def bisectorHS (maxExt : ℝ) (p q : Vec3) : HalfSpace :=
  ⟨bisA p q, bisD p q - bisEps maxExt p q⟩

/-- The exact (unbiased) bisector half-space `a · x + d ≤ 0`, i.e. the
comment in the source: `2(pj - pi)·x - (||pj||^2 - ||pi||^2) <= 0`. -/
def exactBisectorHS (p q : Vec3) : HalfSpace := ⟨bisA p q, bisD p q⟩

/-- Modelled from the spec's words (Bisector System Builder contract), for
comparison with the source-derived `bisectorHS`: normal `a = 2(p_j − p_i)`,
offset `d = −(‖p_j‖² − ‖p_i‖²)`, `scale = ‖a‖ × max_extent + |d|`,
`eps = 1e4 × machine_epsilon × scale`, final offset `d − eps`. -/
def specBisectorHS (maxExt : ℝ) (p q : Vec3) : HalfSpace :=
  let a := Vec3.scale 2 (Vec3.sub q p)
  let d := -(Vec3.dot q q - Vec3.dot p p)
  let scaleTerm := Vec3.norm a * maxExt + |d|
  let eps := 10000 * machineEps * scaleTerm
  ⟨a, d - eps⟩

/-- `seed_points_array[k]` (out-of-range reads never occur on the
executed paths; the default is irrelevant there). -/
def seedAt (seeds : List Vec3) (k : ℕ) : Vec3 := seeds.getD k ⟨0, 0, 0⟩

/-- The list `hs` built by the inner loop of the source for seed `i`:
`for j in range(N): if j == i: continue; ... hs.append([a[0], a[1], a[2], d - eps])`. -/
def mkBisectors (maxExt : ℝ) (seeds : List Vec3) (i : ℕ) : List HalfSpace :=
  (List.range seeds.length).filterMap fun j =>
    if j = i then none
    else some (bisectorHS maxExt (seedAt seeds i) (seedAt seeds j))

/-- The six AABB half-spaces, rows in source order:
`[1,0,0,-xmax], [-1,0,0,xmin], [0,1,0,-ymax], [0,-1,0,ymin],
[0,0,1,-zmax], [0,0,-1,zmin]` with `xmin,... = center ∓ half`. -/
def aabbHalfspaces (center : Vec3) (half : ℝ) : List HalfSpace :=
  [⟨⟨1, 0, 0⟩, -(center.x + half)⟩,
   ⟨⟨-1, 0, 0⟩, center.x - half⟩,
   ⟨⟨0, 1, 0⟩, -(center.y + half)⟩,
   ⟨⟨0, -1, 0⟩, center.y - half⟩,
   ⟨⟨0, 0, 1⟩, -(center.z + half)⟩,
   ⟨⟨0, 0, -1⟩, center.z - half⟩]

/-- `np.max(extent)` for the 3-component extent vector. -/
def maxExtent3 (v : Vec3) : ℝ := max v.x (max v.y v.z)

/-- The stacked constraint array of the cell of seed `i`:
`halfspaces = np.vstack([np.asarray(hs), aabb_halfspaces])`. -/
def cellHalfspaces (maxExt : ℝ) (aabbHS : List HalfSpace)
    (seeds : List Vec3) (i : ℕ) : List HalfSpace :=
  mkBisectors maxExt seeds i ++ aabbHS

/-- Membership in the feasible region of the cell of seed `i` (the point
satisfies every stacked inequality). -/
def inCellSystem (maxExt : ℝ) (aabbHS : List HalfSpace) (seeds : List Vec3)
    (i : ℕ) (xp : Vec3) : Prop :=
  ∀ h ∈ cellHalfspaces maxExt aabbHS seeds i, evalHS h xp ≤ 0

/-- Membership in the exact (unbiased) Voronoi region of seed `i`:
closer to seed `i` than to every other seed. -/
def inExactRegion (seeds : List Vec3) (i : ℕ) (xp : Vec3) : Prop :=
  ∀ j, j < seeds.length → j ≠ i →
    evalHS (exactBisectorHS (seedAt seeds i) (seedAt seeds j)) xp ≤ 0

/-- Membership in the closure box given by its six half-spaces. -/
def inClosure (aabbHS : List HalfSpace) (xp : Vec3) : Prop :=
  ∀ h ∈ aabbHS, evalHS h xp ≤ 0

/-- The data of a `trimesh.Trimesh` that `voronoi_tessellate_mesh`
consults, with the library queries (`bounds`, `centroid`, `contains`,
`split`) recorded as fields; `M` is the abstract type of the mesh objects
handled by the black-box geometry engines. -/
structure MeshModel (M : Type) where
  lo : Vec3
  hi : Vec3
  centroid : Vec3
  contains : Vec3 → Bool
  shells : List M

/-- `max_extent = float(np.max(extent))` with `extent = bounds[1] - bounds[0]`. -/
def maxExtentOf {M : Type} (m : MeshModel M) : ℝ := maxExtent3 (Vec3.sub m.hi m.lo)

/-- `half = 0.5 * aabb_scale * max_extent`. -/
def halfWidthOf {M : Type} (m : MeshModel M) (aabbScale : ℝ) : ℝ :=
  1 / 2 * aabbScale * maxExtentOf m

/-- The `aabb_halfspaces` array of the run. -/
def closureHalfspaces {M : Type} (m : MeshModel M) (aabbScale : ℝ) : List HalfSpace :=
  aabbHalfspaces m.centroid (halfWidthOf m aabbScale)

/-- `box_min + candidates * box_size` for one raw sample `c ∈ [0,1]³`. -/
def mapToBox (lo size c : Vec3) : Vec3 := Vec3.add lo (Vec3.hprod c size)

/-- A raw sample in the unit cube, as produced by `np.random.rand`. -/
def inUnitCube (c : Vec3) : Prop :=
  (0 ≤ c.x ∧ c.x ≤ 1) ∧ (0 ≤ c.y ∧ c.y ≤ 1) ∧ (0 ≤ c.z ∧ c.z ≤ 1)

/-- The rejection-sampling `while` loop of the source, with fuel.  The
`k`-th iteration draws the batch `cand k` of raw uniform samples, maps
them into the bounding box and keeps those accepted by `contains`
(extending by the empty list when none is accepted, exactly as the
`np.any` guard does).  On exit the source keeps `seed_points[:N]`. -/
def sampleLoop (lo hi : Vec3) (contains : Vec3 → Bool) (N : ℕ)
    (cand : ℕ → List Vec3) : ℕ → List Vec3 → ℕ → Option (List Vec3)
  | _, acc, 0 =>
      if N ≤ acc.length then some (acc.take N) else none
  | k, acc, fuel + 1 =>
      if N ≤ acc.length then some (acc.take N)
      else
        sampleLoop lo hi contains N cand (k + 1)
          (acc ++ ((cand k).map (mapToBox lo (Vec3.sub hi lo))).filter contains) fuel

/-- The sampling step terminates (for some finite number of loop
iterations) on the given mesh data and random stream. -/
def samplingTerminates (lo hi : Vec3) (contains : Vec3 → Bool) (N : ℕ)
    (cand : ℕ → List Vec3) : Prop :=
  ∃ fuel, (sampleLoop lo hi contains N cand 0 [] fuel).isSome

/-- The external geometry engines the source calls, as oracles over the
abstract mesh type `M`.  `solve` is `scipy.spatial.HalfspaceIntersection`
(the returned `intersections` vertex list; `none` models a raised
exception), `convexHull` is `trimesh.convex.convex_hull`, `intersectMesh`
is `cell_poly.intersection(shell, engine="manifold")` (`none` models both
a raised exception and a `None` result), `isEmptyMesh` is `part.is_empty`,
and `concatMeshes` is `trimesh.util.concatenate`. -/
structure GeomOracles (M : Type) where
  solve : List HalfSpace → Vec3 → Option (List Vec3)
  convexHull : List Vec3 → Option M
  intersectMesh : M → M → Option M
  isEmptyMesh : M → Bool
  concatMeshes : List M → M

/-- The interior point handed to `HalfspaceIntersection` must strictly
satisfy every inequality; `scipy`/qhull raise otherwise.  This predicate
models that documented precondition check. -/
def strictlyFeasible (hss : List HalfSpace) (p : Vec3) : Bool :=
  hss.all fun h => decide (evalHS h p < 0)

/-- `HalfspaceIntersection(halfspaces, interior_point)` wrapped in the
source's `try/except`: it fails (is caught and skipped) whenever the
interior point is not strictly feasible, and may also fail inside the
external solver (`O.solve` returning `none`). -/
def solveStep {M : Type} (O : GeomOracles M) (hss : List HalfSpace)
    (p : Vec3) : Option (List Vec3) :=
  if strictlyFeasible hss p then O.solve hss p else none

/-- The per-shell clipping loop: each shell is intersected independently;
a raised exception (`none`) skips that shell, and empty parts are not
appended. -/
def clipParts {M : Type} (O : GeomOracles M) (shells : List M) (poly : M) :
    List M :=
  shells.filterMap fun sh =>
    match O.intersectMesh poly sh with
    | none => none
    | some part => if O.isEmptyMesh part then none else some part

/-- The body of the per-seed loop of `voronoi_tessellate_mesh`: build the
bisector system, stack the AABB rows, solve, reject degenerate vertex
sets, take the convex hull, clip per shell, and merge the parts
(`clipped_parts[0]` when there is exactly one, `concatenate` otherwise).
`none` is a discarded cell. -/
def processCell {M : Type} (O : GeomOracles M) (shells : List M)
    (aabbHS : List HalfSpace) (maxExt : ℝ) (seeds : List Vec3) (i : ℕ) :
    Option M :=
  match solveStep O (cellHalfspaces maxExt aabbHS seeds i) (seedAt seeds i) with
  | none => none
  | some verts =>
    if verts.length < 4 then none
    else
      match O.convexHull verts with
      | none => none
      | some poly =>
        match clipParts O shells poly with
        | [] => none
        | [part] => some part
        | parts => some (O.concatMeshes parts)

/-- Outcome of a call to `voronoi_tessellate_mesh`: either one of the two
configuration `ValueError`s (`ConfigurationError` in the spec's taxonomy)
or a normal return with the accumulated cell list. -/
inductive TessResult (M : Type) where
  | configError : TessResult M
  | ok : List M → TessResult M

/-- The whole of `voronoi_tessellate_mesh`, with fuel for the sampling
loop (`none` = the run never gets past the unbounded `while`).  The
configuration checks are performed first, before any shell or sampling
work, exactly as in the source. -/
def voronoi_tessellate_mesh {M : Type} (O : GeomOracles M) (m : MeshModel M)
    (numberOfCells : ℤ) (aabbScale : ℝ) (cand : ℕ → List Vec3) (fuel : ℕ) :
    Option (TessResult M) :=
  if numberOfCells < 1 then some .configError
  else if aabbScale ≤ 1 then some .configError
  else
    match sampleLoop m.lo m.hi m.contains numberOfCells.toNat cand 0 [] fuel with
    | none => none
    | some seeds =>
      some (.ok ((List.range numberOfCells.toNat).filterMap
        (processCell O m.shells (closureHalfspaces m aabbScale)
          (maxExtentOf m) seeds)))

/-- The whole run terminates normally for some finite sampling fuel. -/
def tessellationTerminates {M : Type} (O : GeomOracles M) (m : MeshModel M)
    (numberOfCells : ℤ) (aabbScale : ℝ) (cand : ℕ → List Vec3) : Prop :=
  ∃ fuel, (voronoi_tessellate_mesh O m numberOfCells aabbScale cand fuel).isSome

/-! ## Concrete instances

An exact-geometry instantiation of the oracles on axis-aligned boxes,
used to run the pipeline on the single-cube `N = 1` scenario, and a
degenerate zero-volume mesh whose containment test accepts nothing. -/

/-- An axis-aligned box, the concrete mesh type of the cube scenario. -/
@[ext]
structure Box where
  lo : Vec3
  hi : Vec3

/-- `mesh.volume` for an axis-aligned box. -/
def boxVolume (b : Box) : ℝ :=
  (b.hi.x - b.lo.x) * (b.hi.y - b.lo.y) * (b.hi.z - b.lo.z)

/-- The eight corners of the box `[lo, hi]`. -/
def boxCorners (lo hi : Vec3) : List Vec3 :=
  [⟨lo.x, lo.y, lo.z⟩, ⟨hi.x, lo.y, lo.z⟩, ⟨lo.x, hi.y, lo.z⟩, ⟨hi.x, hi.y, lo.z⟩,
   ⟨lo.x, lo.y, hi.z⟩, ⟨hi.x, lo.y, hi.z⟩, ⟨lo.x, hi.y, hi.z⟩, ⟨hi.x, hi.y, hi.z⟩]

/-- `HalfspaceIntersection` evaluated on the inputs that occur in the
`N = 1` scenario: a system of exactly six half-spaces in the source's
AABB row order, whose feasible region is the box
`[(d2, d4, d6), (-d1, -d3, -d5)]`; the solver returns that region's
vertex set, its eight corners.  On any other shape it fails. -/
def boxSolve : List HalfSpace → Vec3 → Option (List Vec3)
  | [h1, h2, h3, h4, h5, h6], _ =>
      some (boxCorners ⟨h2.d, h4.d, h6.d⟩ ⟨-h1.d, -h3.d, -h5.d⟩)
  | _, _ => none

/-- Componentwise minimum. -/
def vmin (a b : Vec3) : Vec3 := ⟨min a.x b.x, min a.y b.y, min a.z b.z⟩

/-- Componentwise maximum. -/
def vmax (a b : Vec3) : Vec3 := ⟨max a.x b.x, max a.y b.y, max a.z b.z⟩

/-- `trimesh.convex.convex_hull` on a vertex set that spans an
axis-aligned box: the hull is the componentwise bounding box of the
vertices.  Fails on an empty vertex set. -/
def hullBox : List Vec3 → Option Box
  | [] => none
  | v :: vs => some ⟨vs.foldl vmin v, vs.foldl vmax v⟩

/-- Solid intersection of two axis-aligned boxes. -/
def boxInter (a b : Box) : Box := ⟨vmax a.lo b.lo, vmin a.hi b.hi⟩

/-- `part.is_empty`: a box mesh is empty when it has no interior. -/
def boxIsEmpty (b : Box) : Bool :=
  !(decide (b.lo.x < b.hi.x ∧ b.lo.y < b.hi.y ∧ b.lo.z < b.hi.z))

/-- `trimesh.util.concatenate`, reached only for two or more parts; no
claim exercises the multi-part path, so any total stand-in serves. -/
def concatBoxes (l : List Box) : Box := l.headD ⟨⟨0, 0, 0⟩, ⟨0, 0, 0⟩⟩

/-- Exact-geometry oracles on axis-aligned boxes. -/
def boxOracles : GeomOracles Box :=
  ⟨boxSolve, hullBox, fun poly sh => some (boxInter poly sh), boxIsEmpty,
   concatBoxes⟩

/-- The axis-aligned cube of side `L` centered at `c`, as a box. -/
def cubeBox (c : Vec3) (L : ℝ) : Box :=
  ⟨⟨c.x - L / 2, c.y - L / 2, c.z - L / 2⟩, ⟨c.x + L / 2, c.y + L / 2, c.z + L / 2⟩⟩

open Classical in
/-- Strict-interior point-in-box test (the containment classification of
a convex box mesh). -/
def insideBox (lo hi p : Vec3) : Bool :=
  decide (Vec3.vlt lo p ∧ Vec3.vlt p hi)

/-- The watertight cube of side `L` centered at `c` as a mesh model:
tight bounds, centroid at the center, strict-interior containment test,
a single shell. -/
def cubeMesh (c : Vec3) (L : ℝ) : MeshModel Box :=
  { lo := (cubeBox c L).lo
    hi := (cubeBox c L).hi
    centroid := c
    contains := insideBox (cubeBox c L).lo (cubeBox c L).hi
    shells := [cubeBox c L] }

/-- The constant random stream whose every batch is the single raw
sample `(1/2, 1/2, 1/2)` (the center of the unit cube). -/
def centerCand : ℕ → List Vec3 := fun _ => [⟨1 / 2, 1 / 2, 1 / 2⟩]

/-- A zero-volume (open / degenerate) mesh: `trimesh.contains` accepts no
point, so rejection sampling can never collect a seed.  The abstract mesh
type is `Unit` since no geometry engine is ever reached. -/
def flatMesh : MeshModel Unit :=
  { lo := ⟨0, 0, 0⟩
    hi := ⟨1, 1, 0⟩
    centroid := ⟨1 / 2, 1 / 2, 0⟩
    contains := fun _ => false
    shells := [()] }

/-- Trivial oracles over the `Unit` mesh type. -/
def unitOracles : GeomOracles Unit :=
  ⟨fun _ _ => none, fun _ => none, fun _ _ => none, fun _ => true, fun _ => ()⟩

/-- A mesh with bounds `[0,1]³` whose mass (hence `trimesh` centroid)
sits near the `+x` face, at `(9/10, 1/2, 1/2)`.  Used to exhibit a
closure box that misses part of the geometry when `aabb_scale` is close
to 1. -/
def skewMesh : MeshModel Unit :=
  { lo := ⟨0, 0, 0⟩
    hi := ⟨1, 1, 1⟩
    centroid := ⟨9 / 10, 1 / 2, 1 / 2⟩
    contains := fun _ => true
    shells := [()] }

/-! ## General list helpers -/

theorem filterMap_ite_ne {β : Type} (l : List ℕ) (i : ℕ) (f : ℕ → β) :
    (l.filterMap fun j => if j = i then none else some (f j))
      = (l.filter fun j => j ≠ i).map f := by
  induction l with
  | nil => rfl
  | cons a l ih =>
    by_cases ha : a = i <;>
      simp [List.filterMap_cons, List.filter_cons, ha, ih]

theorem length_filter_ne_range (N i : ℕ) (h : i < N) :
    ((List.range N).filter fun j => j ≠ i).length = N - 1 := by
  induction N with
  | zero => omega
  | succ n ih =>
    rw [List.range_succ, List.filter_append, List.length_append,
      List.filter_singleton]
    by_cases h' : i < n
    · have hd : n ≠ i := by omega
      rw [ih h']
      simp [hd]
      omega
    · have hi : i = n := by omega
      subst hi
      rw [List.filter_eq_self.mpr]
      · simp
      · intro a ha
        have : a < i := List.mem_range.mp ha
        simpa using (by omega : a ≠ i)

theorem filterMap_filter_isSome {α β : Type} (f : α → Option β) (l : List α) :
    ((l.filter fun x => (f x).isSome).filterMap f) = l.filterMap f := by
  induction l with
  | nil => rfl
  | cons a l ih =>
    cases ha : f a <;>
      simp [List.filter_cons, List.filterMap_cons, ha, ih]

theorem filterMap_skip_none {β : Type} (f : ℕ → Option β) (i : ℕ)
    (hf : f i = none) (l : List ℕ) :
    l.filterMap f = ((l.filter fun j => j ≠ i).filterMap f) := by
  induction l with
  | nil => rfl
  | cons a l ih =>
    by_cases ha : a = i
    · subst ha
      simp [List.filterMap_cons, List.filter_cons, hf, ih]
    · simp [List.filterMap_cons, List.filter_cons, ha, ih]

/-! ## Bisector algebra -/

theorem dot_self_nonneg (v : Vec3) : 0 ≤ Vec3.dot v v := by
  unfold Vec3.dot
  nlinarith [sq_nonneg v.x, sq_nonneg v.y, sq_nonneg v.z]

theorem vnorm_nonneg (v : Vec3) : 0 ≤ Vec3.norm v := Real.sqrt_nonneg _

theorem bisEps_nonneg (maxExt : ℝ) (hme : 0 ≤ maxExt) (p q : Vec3) :
    0 ≤ bisEps maxExt p q := by
  unfold bisEps machineEps
  have h1 : 0 ≤ Vec3.norm (bisA p q) := vnorm_nonneg _
  have h2 : (0:ℝ) ≤ |bisD p q| := abs_nonneg _
  positivity

theorem bisD_swap (p q : Vec3) : bisD q p = -(bisD p q) := by
  unfold bisD; ring

theorem bisA_dot_swap (p q : Vec3) :
    Vec3.dot (bisA q p) (bisA q p) = Vec3.dot (bisA p q) (bisA p q) := by
  unfold bisA Vec3.dot Vec3.scale Vec3.sub; ring

theorem bisEps_swap (maxExt : ℝ) (p q : Vec3) :
    bisEps maxExt q p = bisEps maxExt p q := by
  unfold bisEps Vec3.norm
  rw [bisA_dot_swap, bisD_swap, abs_neg]

/-- The affine form of the biased bisector evaluated at its own seed:
`a · p + d = -‖q - p‖²`, so the value is `-‖q - p‖² - eps`. -/
theorem evalHS_bisector_at_seed (maxExt : ℝ) (p q : Vec3) :
    evalHS (bisectorHS maxExt p q) p
      = -(Vec3.dot (Vec3.sub q p) (Vec3.sub q p)) - bisEps maxExt p q := by
  unfold evalHS bisectorHS bisA bisD Vec3.dot Vec3.scale Vec3.sub
  ring

theorem mkBisectors_eq_map (maxExt : ℝ) (seeds : List Vec3) (i : ℕ) :
    mkBisectors maxExt seeds i
      = ((List.range seeds.length).filter fun j => j ≠ i).map
          (fun j => bisectorHS maxExt (seedAt seeds i) (seedAt seeds j)) := by
  unfold mkBisectors
  exact filterMap_ite_ne _ _ _

theorem mem_mkBisectors (maxExt : ℝ) (seeds : List Vec3) (i j : ℕ)
    (hj : j < seeds.length) (hne : j ≠ i) :
    bisectorHS maxExt (seedAt seeds i) (seedAt seeds j)
      ∈ mkBisectors maxExt seeds i := by
  rw [mkBisectors_eq_map]
  exact List.mem_map_of_mem _ (List.mem_filter.mpr ⟨List.mem_range.mpr hj, by simp [hne]⟩)

/-! ## Sampling lemmas -/

/-- A raw unit-cube sample mapped by `box_min + c * box_size` lands in
the bounding box. -/
theorem mapToBox_mem (lo hi c : Vec3) (hlh : Vec3.vle lo hi)
    (hc : inUnitCube c) :
    Vec3.vle lo (mapToBox lo (Vec3.sub hi lo) c)
      ∧ Vec3.vle (mapToBox lo (Vec3.sub hi lo) c) hi := by
  obtain ⟨⟨hx0, hx1⟩, ⟨hy0, hy1⟩, ⟨hz0, hz1⟩⟩ := hc
  obtain ⟨hlx, hly, hlz⟩ := hlh
  unfold mapToBox Vec3.add Vec3.hprod Vec3.sub Vec3.vle
  refine ⟨⟨?_, ?_, ?_⟩, ⟨?_, ?_, ?_⟩⟩ <;> simp only <;> nlinarith

/-- Every element appended by one iteration of the sampling loop passed
the containment test and (under the stream hypotheses) lies in the
bounding box; hence so does every element of a successful result, and the
result has exactly `N` elements. -/
theorem sampleLoop_sound (lo hi : Vec3) (contains : Vec3 → Bool) (N : ℕ)
    (cand : ℕ → List Vec3)
    (hcand : ∀ k, ∀ c ∈ cand k, inUnitCube c) (hlh : Vec3.vle lo hi) :
    ∀ fuel k acc seeds,
      (∀ s ∈ acc, contains s = true ∧ Vec3.vle lo s ∧ Vec3.vle s hi) →
      sampleLoop lo hi contains N cand k acc fuel = some seeds →
      seeds.length = N
        ∧ ∀ s ∈ seeds, contains s = true ∧ Vec3.vle lo s ∧ Vec3.vle s hi := by
  intro fuel
  induction fuel with
  | zero =>
    intro k acc seeds hacc hrun
    unfold sampleLoop at hrun
    by_cases hlen : N ≤ acc.length
    · rw [if_pos hlen] at hrun
      obtain rfl : acc.take N = seeds := by simpa using hrun
      constructor
      · simpa using hlen
      · intro s hs
        exact hacc s (List.mem_of_mem_take hs)
    · rw [if_neg hlen] at hrun
      exact absurd hrun (by simp)
  | succ fuel ih =>
    intro k acc seeds hacc hrun
    unfold sampleLoop at hrun
    by_cases hlen : N ≤ acc.length
    · rw [if_pos hlen] at hrun
      obtain rfl : acc.take N = seeds := by simpa using hrun
      constructor
      · simpa using hlen
      · intro s hs
        exact hacc s (List.mem_of_mem_take hs)
    · rw [if_neg hlen] at hrun
      refine ih (k + 1) _ seeds ?_ hrun
      intro s hs
      rcases List.mem_append.mp hs with hs | hs
      · exact hacc s hs
      · obtain ⟨hmem, hcont⟩ := List.mem_filter.mp hs
        obtain ⟨c, hcmem, rfl⟩ := List.mem_map.mp hmem
        exact ⟨hcont, (mapToBox_mem lo hi c hlh (hcand k c hcmem)).1,
          (mapToBox_mem lo hi c hlh (hcand k c hcmem)).2⟩

/-- On the degenerate mesh whose containment test accepts nothing, the
sampling loop never finishes: the accumulator stays empty for every
amount of fuel. -/
theorem flat_sampleLoop_none (N : ℕ) (hN : 1 ≤ N) (cand : ℕ → List Vec3) :
    ∀ fuel k, sampleLoop flatMesh.lo flatMesh.hi flatMesh.contains N cand
      k [] fuel = none := by
  intro fuel
  induction fuel with
  | zero =>
    intro k
    unfold sampleLoop
    rw [if_neg (by simpa using by omega)]
  | succ fuel ih =>
    intro k
    unfold sampleLoop
    rw [if_neg (by simpa using by omega)]
    have hfilter :
        (((cand k).map (mapToBox flatMesh.lo
          (Vec3.sub flatMesh.hi flatMesh.lo))).filter flatMesh.contains) = [] := by
      simp [flatMesh]
    rw [hfilter, List.append_nil]
    exact ih (k + 1)

/-! ## Cube-scenario evaluation -/

theorem cube_maxExtent (c : Vec3) (L : ℝ) : maxExtentOf (cubeMesh c L) = L := by
  unfold maxExtentOf cubeMesh cubeBox maxExtent3 Vec3.sub
  simp only
  rw [(by ring : c.x + L / 2 - (c.x - L / 2) = L),
    (by ring : c.y + L / 2 - (c.y - L / 2) = L),
    (by ring : c.z + L / 2 - (c.z - L / 2) = L), max_self, max_self]

theorem cube_closure (c : Vec3) (L s : ℝ) :
    closureHalfspaces (cubeMesh c L) s = aabbHalfspaces c (1 / 2 * s * L) := by
  unfold closureHalfspaces halfWidthOf
  rw [cube_maxExtent]
  rfl

theorem insideBox_iff (lo hi p : Vec3) :
    insideBox lo hi p = true ↔ Vec3.vlt lo p ∧ Vec3.vlt p hi := by
  simp [insideBox]

theorem strictlyFeasible_iff (hss : List HalfSpace) (p : Vec3) :
    strictlyFeasible hss p = true ↔ ∀ h ∈ hss, evalHS h p < 0 := by
  simp [strictlyFeasible]

theorem boxIsEmpty_eq_false (b : Box) :
    boxIsEmpty b = false
      ↔ (b.lo.x < b.hi.x ∧ b.lo.y < b.hi.y ∧ b.lo.z < b.hi.z) := by
  simp [boxIsEmpty]

theorem cube_contains_center (c : Vec3) (L : ℝ) (hL : 0 < L) :
    (cubeMesh c L).contains c = true := by
  show insideBox (cubeBox c L).lo (cubeBox c L).hi c = true
  rw [insideBox_iff]
  dsimp only [cubeBox, Vec3.vlt]
  refine ⟨⟨?_, ?_, ?_⟩, ?_, ?_, ?_⟩ <;> linarith

theorem cube_sample (c : Vec3) (L : ℝ) (hL : 0 < L) :
    sampleLoop (cubeMesh c L).lo (cubeMesh c L).hi (cubeMesh c L).contains 1
      centerCand 0 [] 1 = some [c] := by
  have hmap : mapToBox (cubeMesh c L).lo
      (Vec3.sub (cubeMesh c L).hi (cubeMesh c L).lo) ⟨1 / 2, 1 / 2, 1 / 2⟩ = c := by
    ext <;>
      dsimp only [cubeMesh, cubeBox, mapToBox, Vec3.add, Vec3.hprod, Vec3.sub] <;>
      ring
  show sampleLoop (cubeMesh c L).lo (cubeMesh c L).hi (cubeMesh c L).contains 1
      centerCand 0 [] (0 + 1) = some [c]
  unfold sampleLoop
  rw [if_neg (by simp)]
  unfold centerCand
  rw [List.map_cons, List.map_nil, hmap, List.nil_append,
    List.filter_singleton, cube_contains_center c L hL]
  unfold sampleLoop
  simp

theorem mkBisectors_single (maxExt : ℝ) (p : Vec3) :
    mkBisectors maxExt [p] 0 = [] := by
  unfold mkBisectors
  simp

theorem hullBox_boxCorners (lo hi : Vec3) (hx : lo.x ≤ hi.x)
    (hy : lo.y ≤ hi.y) (hz : lo.z ≤ hi.z) :
    hullBox (boxCorners lo hi) = some ⟨lo, hi⟩ := by
  unfold hullBox boxCorners
  simp only [List.foldl_cons, List.foldl_nil]
  unfold vmin vmax
  simp only [min_self, max_self, min_eq_left hx, min_eq_left hy,
    min_eq_left hz, max_eq_right hx, max_eq_right hy, max_eq_right hz,
    max_eq_left hx, max_eq_left hy, max_eq_left hz,
    min_eq_right hx, min_eq_right hy, min_eq_right hz]

theorem cube_feasible (c : Vec3) (L s : ℝ) (hL : 0 < L) (hs : 1 < s) :
    strictlyFeasible (aabbHalfspaces c (1 / 2 * s * L)) c = true := by
  have hh : 0 < 1 / 2 * s * L := by nlinarith
  simp only [strictlyFeasible, aabbHalfspaces, evalHS, Vec3.dot,
    List.all_cons, List.all_nil, Bool.and_true, Bool.and_eq_true,
    decide_eq_true_eq]
  refine ⟨by linarith, by linarith, by linarith, by linarith, by linarith,
    by linarith⟩

theorem cube_solveStep (c : Vec3) (L s : ℝ) (hL : 0 < L) (hs : 1 < s) :
    solveStep boxOracles (aabbHalfspaces c (1 / 2 * s * L)) c
      = some (boxCorners
          ⟨c.x - 1 / 2 * s * L, c.y - 1 / 2 * s * L, c.z - 1 / 2 * s * L⟩
          ⟨c.x + 1 / 2 * s * L, c.y + 1 / 2 * s * L, c.z + 1 / 2 * s * L⟩) := by
  unfold solveStep
  rw [cube_feasible c L s hL hs, if_pos rfl]
  show boxSolve (aabbHalfspaces c (1 / 2 * s * L)) c = _
  simp only [boxSolve, aabbHalfspaces, neg_neg]

/-- Per-shell clipping over a single shell that intersects the cell in a
non-empty part keeps exactly that part. -/
theorem clipParts_singleton {M : Type} (O : GeomOracles M) (sh poly part : M)
    (hint : O.intersectMesh poly sh = some part)
    (hne : O.isEmptyMesh part = false) :
    clipParts O [sh] poly = [part] := by
  unfold clipParts
  rw [List.filterMap_cons, List.filterMap_nil, hint]
  simp [hne]

theorem cube_hull (c : Vec3) (L s : ℝ) (hL : 0 < L) (hs : 1 < s) :
    boxOracles.convexHull (boxCorners
        ⟨c.x - 1 / 2 * s * L, c.y - 1 / 2 * s * L, c.z - 1 / 2 * s * L⟩
        ⟨c.x + 1 / 2 * s * L, c.y + 1 / 2 * s * L, c.z + 1 / 2 * s * L⟩)
      = some ⟨⟨c.x - 1 / 2 * s * L, c.y - 1 / 2 * s * L, c.z - 1 / 2 * s * L⟩,
          ⟨c.x + 1 / 2 * s * L, c.y + 1 / 2 * s * L, c.z + 1 / 2 * s * L⟩⟩ := by
  have hh : 0 < 1 / 2 * s * L := by nlinarith
  have h1 : c.x - 1 / 2 * s * L ≤ c.x + 1 / 2 * s * L := by linarith
  have h2 : c.y - 1 / 2 * s * L ≤ c.y + 1 / 2 * s * L := by linarith
  have h3 : c.z - 1 / 2 * s * L ≤ c.z + 1 / 2 * s * L := by linarith
  exact hullBox_boxCorners
    ⟨c.x - 1 / 2 * s * L, c.y - 1 / 2 * s * L, c.z - 1 / 2 * s * L⟩
    ⟨c.x + 1 / 2 * s * L, c.y + 1 / 2 * s * L, c.z + 1 / 2 * s * L⟩ h1 h2 h3

theorem cube_clip (c : Vec3) (L s : ℝ) (hL : 0 < L) (hs : 1 < s) :
    clipParts boxOracles (cubeMesh c L).shells
      (⟨⟨c.x - 1 / 2 * s * L, c.y - 1 / 2 * s * L, c.z - 1 / 2 * s * L⟩,
        ⟨c.x + 1 / 2 * s * L, c.y + 1 / 2 * s * L, c.z + 1 / 2 * s * L⟩⟩ : Box)
      = [cubeBox c L] := by
  have hh : 0 < 1 / 2 * s * L := by nlinarith
  have hLh : L / 2 ≤ 1 / 2 * s * L := by nlinarith
  have hint : boxInter
      ⟨⟨c.x - 1 / 2 * s * L, c.y - 1 / 2 * s * L, c.z - 1 / 2 * s * L⟩,
        ⟨c.x + 1 / 2 * s * L, c.y + 1 / 2 * s * L, c.z + 1 / 2 * s * L⟩⟩
      (cubeBox c L) = cubeBox c L := by
    dsimp only [boxInter, cubeBox, vmin, vmax]
    rw [Box.mk.injEq, Vec3.mk.injEq, Vec3.mk.injEq]
    refine ⟨⟨?_, ?_, ?_⟩, ?_, ?_, ?_⟩
    · exact max_eq_right (by linarith)
    · exact max_eq_right (by linarith)
    · exact max_eq_right (by linarith)
    · exact min_eq_right (by linarith)
    · exact min_eq_right (by linarith)
    · exact min_eq_right (by linarith)
  have hempty : boxIsEmpty (cubeBox c L) = false := by
    rw [boxIsEmpty_eq_false]
    refine ⟨show c.x - L / 2 < c.x + L / 2 by linarith,
      show c.y - L / 2 < c.y + L / 2 by linarith,
      show c.z - L / 2 < c.z + L / 2 by linarith⟩
  show clipParts boxOracles [cubeBox c L] _ = [cubeBox c L]
  refine clipParts_singleton boxOracles (cubeBox c L) _ (cubeBox c L) ?_ hempty
  show some (boxInter
      (⟨⟨c.x - 1 / 2 * s * L, c.y - 1 / 2 * s * L, c.z - 1 / 2 * s * L⟩,
        ⟨c.x + 1 / 2 * s * L, c.y + 1 / 2 * s * L, c.z + 1 / 2 * s * L⟩⟩ : Box)
      (cubeBox c L)) = some (cubeBox c L)
  rw [hint]

/-- A validated run with a successfully sampled seed list returns `ok`
with the per-seed `filterMap` of the cell pipeline. -/
theorem tess_ok {M : Type} (O : GeomOracles M) (m : MeshModel M) (Nc : ℤ)
    (s : ℝ) (cand : ℕ → List Vec3) (fuel : ℕ) (seeds : List Vec3)
    (hN : 1 ≤ Nc) (hs : 1 < s)
    (hsamp : sampleLoop m.lo m.hi m.contains Nc.toNat cand 0 [] fuel
      = some seeds) :
    voronoi_tessellate_mesh O m Nc s cand fuel
      = some (.ok ((List.range Nc.toNat).filterMap
          (processCell O m.shells (closureHalfspaces m s)
            (maxExtentOf m) seeds))) := by
  unfold voronoi_tessellate_mesh
  rw [if_neg (by omega), if_neg (not_le.mpr hs), hsamp]

theorem cube_processCell (c : Vec3) (L s : ℝ) (hL : 0 < L) (hs : 1 < s) :
    processCell boxOracles (cubeMesh c L).shells
      (closureHalfspaces (cubeMesh c L) s) (maxExtentOf (cubeMesh c L)) [c] 0
      = some (cubeBox c L) := by
  rw [cube_closure, cube_maxExtent]
  unfold processCell cellHalfspaces
  rw [mkBisectors_single, List.nil_append,
    (show seedAt [c] 0 = c from rfl), cube_solveStep c L s hL hs]
  dsimp only
  rw [if_neg (by norm_num [boxCorners]), cube_hull c L s hL hs]
  dsimp only
  rw [cube_clip c L s hL hs]

/-- Full run on the cube scenario: one cell, equal to the cube itself. -/
theorem cube_run (c : Vec3) (L s : ℝ) (hL : 0 < L) (hs : 1 < s) :
    voronoi_tessellate_mesh boxOracles (cubeMesh c L) 1 s centerCand 1
      = some (.ok [cubeBox c L]) := by
  rw [tess_ok boxOracles (cubeMesh c L) 1 s centerCand 1 [c] le_rfl hs
    (cube_sample c L hL)]
  rw [(show List.range (1:ℤ).toNat = [0] from rfl), List.filterMap_cons,
    List.filterMap_nil, cube_processCell c L s hL hs]

/-- `√4 = 2`. -/
theorem sqrt_four : Real.sqrt 4 = 2 := by
  rw [show (4:ℝ) = 2 ^ 2 by norm_num, Real.sqrt_sq (by norm_num : (0:ℝ) ≤ 2)]

/-- The concrete epsilon of the seed pair `(0,0,0)`, `(1,0,0)` at
`max_extent = 1`. -/
theorem eps_example :
    bisEps 1 ⟨0, 0, 0⟩ ⟨1, 0, 0⟩ = 30000 * machineEps := by
  have hdot : Vec3.dot (bisA ⟨0, 0, 0⟩ ⟨1, 0, 0⟩) (bisA ⟨0, 0, 0⟩ ⟨1, 0, 0⟩)
      = 4 := by
    norm_num [bisA, Vec3.scale, Vec3.sub, Vec3.dot]
  have hn : Vec3.norm (bisA ⟨0, 0, 0⟩ ⟨1, 0, 0⟩) = 2 := by
    unfold Vec3.norm
    rw [hdot, sqrt_four]
  have hd : bisD (⟨0, 0, 0⟩ : Vec3) ⟨1, 0, 0⟩ = -1 := by
    norm_num [bisD, Vec3.dot]
  unfold bisEps
  rw [hn, hd]
  norm_num
  ring

theorem machineEps_pos : 0 < machineEps := by
  unfold machineEps
  positivity

/-! ## Claims -/

/-- C1, counterexample.  The claim asserts termination for *every* input
mesh with a valid configuration, but on a zero-volume mesh whose
containment test accepts no candidate, the rejection-sampling `while`
loop never collects a seed, so `voronoi_tessellate_mesh` never returns
for any amount of fuel (with `N = 1`, `aabb_scale = 2`). -/
theorem C1_counterexample :
    ¬ tessellationTerminates unitOracles flatMesh 1 2 centerCand := by
  rintro ⟨fuel, hsome⟩
  unfold voronoi_tessellate_mesh at hsome
  rw [if_neg (by decide), if_neg (by norm_num),
    (show (1:ℤ).toNat = 1 from rfl),
    flat_sampleLoop_none 1 le_rfl centerCand fuel 0] at hsome
  simp at hsome

/-- C1, amended.  For every valid configuration (`N ≥ 1`,
`aabb_scale > 1`), *whenever the seed-sampling step terminates*, the
orchestrator terminates normally and returns between 0 and N cell
meshes; the output is the ordered `filterMap` of the per-seed pipeline
over a strictly increasing list of seed indices (discarded seeds
contribute no entry). -/
theorem C1_bounded_output_in_seed_order {M : Type} (O : GeomOracles M)
    (m : MeshModel M) (Nc : ℤ) (s : ℝ) (cand : ℕ → List Vec3) (fuel : ℕ)
    (seeds : List Vec3) (hN : 1 ≤ Nc) (hs : 1 < s)
    (hsamp : sampleLoop m.lo m.hi m.contains Nc.toNat cand 0 [] fuel
      = some seeds) :
    ∃ out : List M,
      voronoi_tessellate_mesh O m Nc s cand fuel = some (.ok out)
        ∧ out.length ≤ Nc.toNat
        ∧ ∃ idxs : List ℕ, idxs.Pairwise (· < ·)
            ∧ (∀ i ∈ idxs, i < Nc.toNat
                ∧ (processCell O m.shells (closureHalfspaces m s)
                    (maxExtentOf m) seeds i).isSome)
            ∧ out = idxs.filterMap (processCell O m.shells
                (closureHalfspaces m s) (maxExtentOf m) seeds) := by
  refine ⟨_, tess_ok O m Nc s cand fuel seeds hN hs hsamp, ?_, ?_⟩
  · calc ((List.range Nc.toNat).filterMap
          (processCell O m.shells (closureHalfspaces m s)
            (maxExtentOf m) seeds)).length
        ≤ (List.range Nc.toNat).length := List.length_filterMap_le _ _
      _ = Nc.toNat := List.length_range _
  · refine ⟨(List.range Nc.toNat).filter
        (fun i => (processCell O m.shells (closureHalfspaces m s)
          (maxExtentOf m) seeds i).isSome), ?_, ?_, ?_⟩
    · exact List.Pairwise.sublist (List.filter_sublist _)
        (List.pairwise_lt_range _)
    · intro i hmem
      obtain ⟨hr, hsome⟩ := List.mem_filter.mp hmem
      exact ⟨List.mem_range.mp hr, by simpa using hsome⟩
    · exact (filterMap_filter_isSome _ _).symm

/-- C1, witness: the cube scenario with `N = 1`, `aabb_scale = 2`
discharges the hypotheses of the amended theorem. -/
theorem C1_witness :
    ((1:ℤ) ≤ 1) ∧ ((1:ℝ) < 2)
      ∧ sampleLoop (cubeMesh ⟨0, 0, 0⟩ 1).lo (cubeMesh ⟨0, 0, 0⟩ 1).hi
          (cubeMesh ⟨0, 0, 0⟩ 1).contains (1:ℤ).toNat centerCand 0 [] 1
          = some [⟨0, 0, 0⟩]
      ∧ (∃ out : List Box,
          voronoi_tessellate_mesh boxOracles (cubeMesh ⟨0, 0, 0⟩ 1) 1 2
              centerCand 1 = some (.ok out)
            ∧ out.length ≤ (1:ℤ).toNat
            ∧ ∃ idxs : List ℕ, idxs.Pairwise (· < ·)
                ∧ (∀ i ∈ idxs, i < (1:ℤ).toNat
                    ∧ (processCell boxOracles (cubeMesh ⟨0, 0, 0⟩ 1).shells
                        (closureHalfspaces (cubeMesh ⟨0, 0, 0⟩ 1) 2)
                        (maxExtentOf (cubeMesh ⟨0, 0, 0⟩ 1))
                        [⟨0, 0, 0⟩] i).isSome)
                ∧ out = idxs.filterMap (processCell boxOracles
                    (cubeMesh ⟨0, 0, 0⟩ 1).shells
                    (closureHalfspaces (cubeMesh ⟨0, 0, 0⟩ 1) 2)
                    (maxExtentOf (cubeMesh ⟨0, 0, 0⟩ 1)) [⟨0, 0, 0⟩])) :=
  ⟨le_rfl, by norm_num, cube_sample ⟨0, 0, 0⟩ 1 one_pos,
    C1_bounded_output_in_seed_order boxOracles (cubeMesh ⟨0, 0, 0⟩ 1) 1 2
      centerCand 1 [⟨0, 0, 0⟩] le_rfl (by norm_num)
      (cube_sample ⟨0, 0, 0⟩ 1 one_pos)⟩

/-- C2.  For a seed array of `N` distinct points and any seed index
`i < N`, the bisector builder produces exactly `N − 1` half-spaces, one
per other seed `p_j` in index order, each equal to the spec's formula
(`a = 2(p_j − p_i)`, `d = −(‖p_j‖² − ‖p_i‖²)`, stored offset `d − eps`
with `eps = 1e4 · machine_epsilon · (‖a‖ · max_extent + |d|)`). -/
theorem C2_bisector_system (seeds : List Vec3) (maxExt : ℝ) (i : ℕ)
    (hiN : i < seeds.length) (hdist : seeds.Pairwise (· ≠ ·)) :
    (mkBisectors maxExt seeds i).length = seeds.length - 1
      ∧ mkBisectors maxExt seeds i
          = ((List.range seeds.length).filter fun j => j ≠ i).map
              (fun j => specBisectorHS maxExt (seedAt seeds i)
                (seedAt seeds j)) := by
  have hspec : ∀ p q : Vec3,
      specBisectorHS maxExt p q = bisectorHS maxExt p q := fun _ _ => rfl
  constructor
  · rw [mkBisectors_eq_map, List.length_map, length_filter_ne_range _ _ hiN]
  · rw [mkBisectors_eq_map]
    simp only [hspec]

/-- C2, witness: two distinct seeds, `i = 0`. -/
theorem C2_witness :
    (0 < ([⟨0, 0, 0⟩, ⟨1, 0, 0⟩] : List Vec3).length)
      ∧ ([⟨0, 0, 0⟩, ⟨1, 0, 0⟩] : List Vec3).Pairwise (· ≠ ·)
      ∧ (mkBisectors 1 [⟨0, 0, 0⟩, ⟨1, 0, 0⟩] 0).length
          = ([⟨0, 0, 0⟩, ⟨1, 0, 0⟩] : List Vec3).length - 1
      ∧ mkBisectors 1 [⟨0, 0, 0⟩, ⟨1, 0, 0⟩] 0
          = ((List.range ([⟨0, 0, 0⟩, ⟨1, 0, 0⟩] : List Vec3).length).filter
              fun j => j ≠ 0).map
              (fun j => specBisectorHS 1 (seedAt [⟨0, 0, 0⟩, ⟨1, 0, 0⟩] 0)
                (seedAt [⟨0, 0, 0⟩, ⟨1, 0, 0⟩] j)) := by
  have hd : ([⟨0, 0, 0⟩, ⟨1, 0, 0⟩] : List Vec3).Pairwise (· ≠ ·) := by
    constructor
    · intro b hb
      rw [List.mem_singleton] at hb
      subst hb
      intro hEq
      have := congrArg Vec3.x hEq
      norm_num at this
    · simp
  refine ⟨by simp, hd, ?_, ?_⟩
  · exact (C2_bisector_system [⟨0, 0, 0⟩, ⟨1, 0, 0⟩] 1 0 (by simp) hd).1
  · exact (C2_bisector_system [⟨0, 0, 0⟩, ⟨1, 0, 0⟩] 1 0 (by simp) hd).2

/-- C3.  The originating seed point unconditionally satisfies every
epsilon-biased bisector inequality of its own cell (their value at the
seed is `−‖p_j − p_i‖² − eps ≤ 0`), and whenever the half-space solve
step succeeds — which requires the interior point to be strictly
feasible — the seed satisfies every inequality of the full stacked
system, closure half-spaces included. -/
theorem C3_seed_satisfies_cell_system {M : Type} (O : GeomOracles M)
    (maxExt : ℝ) (hme : 0 ≤ maxExt) (aabbHS : List HalfSpace)
    (seeds : List Vec3) (i : ℕ) :
    (∀ h ∈ mkBisectors maxExt seeds i, evalHS h (seedAt seeds i) ≤ 0)
      ∧ ∀ verts, solveStep O (cellHalfspaces maxExt aabbHS seeds i)
            (seedAt seeds i) = some verts →
          ∀ h ∈ cellHalfspaces maxExt aabbHS seeds i,
            evalHS h (seedAt seeds i) ≤ 0 := by
  constructor
  · intro h hmem
    rw [mkBisectors_eq_map] at hmem
    obtain ⟨j, hj, rfl⟩ := List.mem_map.mp hmem
    rw [evalHS_bisector_at_seed]
    have h1 := dot_self_nonneg (Vec3.sub (seedAt seeds j) (seedAt seeds i))
    have h2 := bisEps_nonneg maxExt hme (seedAt seeds i) (seedAt seeds j)
    linarith
  · intro verts hsol h hmem
    unfold solveStep at hsol
    by_cases hf : strictlyFeasible (cellHalfspaces maxExt aabbHS seeds i)
        (seedAt seeds i) = true
    · exact le_of_lt ((strictlyFeasible_iff _ _).mp hf h hmem)
    · rw [if_neg hf] at hsol
      cases hsol

/-- C3, witness: the cube scenario's single-seed system. -/
theorem C3_witness :
    ((0:ℝ) ≤ 1)
      ∧ ((∀ h ∈ mkBisectors 1 [⟨0, 0, 0⟩] 0, evalHS h (seedAt [⟨0, 0, 0⟩] 0) ≤ 0)
          ∧ ∀ verts, solveStep boxOracles
                (cellHalfspaces 1 (aabbHalfspaces ⟨0, 0, 0⟩ 1) [⟨0, 0, 0⟩] 0)
                (seedAt [⟨0, 0, 0⟩] 0) = some verts →
              ∀ h ∈ cellHalfspaces 1 (aabbHalfspaces ⟨0, 0, 0⟩ 1) [⟨0, 0, 0⟩] 0,
                evalHS h (seedAt [⟨0, 0, 0⟩] 0) ≤ 0) :=
  ⟨by norm_num, C3_seed_satisfies_cell_system boxOracles 1 (by norm_num)
    (aabbHalfspaces ⟨0, 0, 0⟩ 1) [⟨0, 0, 0⟩] 0⟩

theorem bisA_dot_point_swap (p q xp : Vec3) :
    Vec3.dot (bisA q p) xp = -(Vec3.dot (bisA p q) xp) := by
  unfold bisA Vec3.dot Vec3.scale Vec3.sub
  ring

/-- C4.  Any point lying in the half-space systems of two distinct
cells is confined to the slab `|a·x + d| ≤ eps` around the pair's exact
shared bisector plane, where `eps` is the scale-aware machine-epsilon
shift of that pair: the cells' overlap is at most the floating-point
tolerance slab (the two hull polytopes lie inside their half-space
systems). -/
theorem C4_pairwise_overlap_slab (maxExt : ℝ) (aabbHS : List HalfSpace)
    (seeds : List Vec3) (i j : ℕ) (hiN : i < seeds.length)
    (hjN : j < seeds.length) (hne : i ≠ j) (xp : Vec3)
    (hxi : inCellSystem maxExt aabbHS seeds i xp)
    (hxj : inCellSystem maxExt aabbHS seeds j xp) :
    |evalHS (exactBisectorHS (seedAt seeds i) (seedAt seeds j)) xp|
      ≤ bisEps maxExt (seedAt seeds i) (seedAt seeds j) := by
  have h1 := hxi _ (List.mem_append_left aabbHS
    (mem_mkBisectors maxExt seeds i j hjN (Ne.symm hne)))
  have h2 := hxj _ (List.mem_append_left aabbHS
    (mem_mkBisectors maxExt seeds j i hiN hne))
  simp only [evalHS, bisectorHS, exactBisectorHS] at h1 h2 ⊢
  rw [bisA_dot_point_swap, bisD_swap, bisEps_swap] at h2
  rw [abs_le]
  constructor <;> linarith

/-- C4, witness: two seeds on the x-axis and the midpoint of their
shared bisector plane, inside a closure box around both. -/
theorem C4_witness :
    inCellSystem 1 (aabbHalfspaces ⟨1 / 2, 0, 0⟩ 2) [⟨0, 0, 0⟩, ⟨1, 0, 0⟩] 0
        ⟨1 / 2, 0, 0⟩
      ∧ inCellSystem 1 (aabbHalfspaces ⟨1 / 2, 0, 0⟩ 2)
          [⟨0, 0, 0⟩, ⟨1, 0, 0⟩] 1 ⟨1 / 2, 0, 0⟩
      ∧ |evalHS (exactBisectorHS (seedAt [⟨0, 0, 0⟩, ⟨1, 0, 0⟩] 0)
            (seedAt [⟨0, 0, 0⟩, ⟨1, 0, 0⟩] 1)) ⟨1 / 2, 0, 0⟩|
          ≤ bisEps 1 (seedAt [⟨0, 0, 0⟩, ⟨1, 0, 0⟩] 0)
              (seedAt [⟨0, 0, 0⟩, ⟨1, 0, 0⟩] 1) := by
  have hm := machineEps_pos
  have hxi : inCellSystem 1 (aabbHalfspaces ⟨1 / 2, 0, 0⟩ 2)
      [⟨0, 0, 0⟩, ⟨1, 0, 0⟩] 0 ⟨1 / 2, 0, 0⟩ := by
    intro h hmem
    rw [show cellHalfspaces 1 (aabbHalfspaces ⟨1 / 2, 0, 0⟩ 2)
        [⟨0, 0, 0⟩, ⟨1, 0, 0⟩] 0
        = bisectorHS 1 ⟨0, 0, 0⟩ ⟨1, 0, 0⟩ :: aabbHalfspaces ⟨1 / 2, 0, 0⟩ 2
        from rfl] at hmem
    rcases List.mem_cons.mp hmem with rfl | hmem
    · simp only [evalHS, bisectorHS]
      rw [eps_example]
      norm_num [bisA, bisD, Vec3.scale, Vec3.sub, Vec3.dot]
      linarith
    · fin_cases hmem <;> norm_num [evalHS, Vec3.dot]
  have hxj : inCellSystem 1 (aabbHalfspaces ⟨1 / 2, 0, 0⟩ 2)
      [⟨0, 0, 0⟩, ⟨1, 0, 0⟩] 1 ⟨1 / 2, 0, 0⟩ := by
    intro h hmem
    rw [show cellHalfspaces 1 (aabbHalfspaces ⟨1 / 2, 0, 0⟩ 2)
        [⟨0, 0, 0⟩, ⟨1, 0, 0⟩] 1
        = bisectorHS 1 ⟨1, 0, 0⟩ ⟨0, 0, 0⟩ :: aabbHalfspaces ⟨1 / 2, 0, 0⟩ 2
        from rfl] at hmem
    rcases List.mem_cons.mp hmem with rfl | hmem
    · simp only [evalHS, bisectorHS]
      rw [bisEps_swap 1 ⟨0, 0, 0⟩ ⟨1, 0, 0⟩, eps_example]
      norm_num [bisA, bisD, Vec3.scale, Vec3.sub, Vec3.dot]
      linarith
    · fin_cases hmem <;> norm_num [evalHS, Vec3.dot]
  exact ⟨hxi, hxj, C4_pairwise_overlap_slab 1 (aabbHalfspaces ⟨1 / 2, 0, 0⟩ 2)
    [⟨0, 0, 0⟩, ⟨1, 0, 0⟩] 0 1 (by simp) (by simp) (by norm_num)
    ⟨1 / 2, 0, 0⟩ hxi hxj⟩

/-- C5.  A single watertight cube mesh with `N = 1` and any valid
`aabb_scale` yields exactly one clipped cell, equal to the cube itself,
whose volume equals the cube's volume `L³` (the closure box and the
single seed impose no internal cut). -/
theorem C5_single_cube_full_volume (c : Vec3) (L s : ℝ) (hL : 0 < L)
    (hs : 1 < s) :
    voronoi_tessellate_mesh boxOracles (cubeMesh c L) 1 s centerCand 1
      = some (.ok [cubeBox c L]) ∧ boxVolume (cubeBox c L) = L ^ 3 := by
  refine ⟨cube_run c L s hL hs, ?_⟩
  unfold boxVolume cubeBox
  dsimp only
  ring

/-- C5, witness: the unit cube at the origin with `aabb_scale = 2`. -/
theorem C5_witness :
    ((0:ℝ) < 1) ∧ ((1:ℝ) < 2)
      ∧ voronoi_tessellate_mesh boxOracles (cubeMesh ⟨0, 0, 0⟩ 1) 1 2
          centerCand 1 = some (.ok [cubeBox ⟨0, 0, 0⟩ 1])
      ∧ boxVolume (cubeBox ⟨0, 0, 0⟩ 1) = 1 ^ 3 :=
  ⟨by norm_num, by norm_num,
    (C5_single_cube_full_volume ⟨0, 0, 0⟩ 1 2 (by norm_num) (by norm_num)).1,
    (C5_single_cube_full_volume ⟨0, 0, 0⟩ 1 2 (by norm_num) (by norm_num)).2⟩

/-- C6.  With `number_of_cells < 1` or `aabb_scale ≤ 1`, the call
returns the configuration error for every mesh, every set of geometry
oracles, every random stream and every amount of fuel — including zero
fuel, so the error precedes all sampling and cell work. -/
theorem C6_config_error_before_any_work (numberOfCells : ℤ) (aabbScale : ℝ)
    (h : numberOfCells < 1 ∨ aabbScale ≤ 1) :
    ∀ (M : Type) (O : GeomOracles M) (m : MeshModel M)
      (cand : ℕ → List Vec3) (fuel : ℕ),
      voronoi_tessellate_mesh O m numberOfCells aabbScale cand fuel
        = some .configError := by
  intro M O m cand fuel
  unfold voronoi_tessellate_mesh
  rcases h with h | h
  · rw [if_pos h]
  · by_cases hN : numberOfCells < 1
    · rw [if_pos hN]
    · rw [if_neg hN, if_pos h]

/-- C6, witness: `N = 0`, `aabb_scale = 2`, zero fuel, trivial oracles:
the error comes back with no sampling work at all. -/
theorem C6_witness :
    ((0:ℤ) < 1 ∨ (2:ℝ) ≤ 1)
      ∧ voronoi_tessellate_mesh unitOracles flatMesh 0 2 centerCand 0
          = some .configError :=
  ⟨Or.inl (by decide),
    C6_config_error_before_any_work 0 2 (Or.inl (by decide)) Unit unitOracles
      flatMesh centerCand 0⟩

/-- C7.  Whenever the rejection-sampling loop terminates it returns
exactly `N` points; every returned point passed the containment test,
every returned point lies in the mesh's bounding box, and indeed every
candidate generated from a unit-cube raw sample lies in the bounding
box. -/
theorem C7_sampling_contract (lo hi : Vec3) (contains : Vec3 → Bool) (N : ℕ)
    (cand : ℕ → List Vec3) (fuel : ℕ) (seeds : List Vec3)
    (hcand : ∀ k, ∀ c ∈ cand k, inUnitCube c) (hlh : Vec3.vle lo hi)
    (hrun : sampleLoop lo hi contains N cand 0 [] fuel = some seeds) :
    seeds.length = N
      ∧ (∀ s ∈ seeds, contains s = true ∧ Vec3.vle lo s ∧ Vec3.vle s hi)
      ∧ ∀ k, ∀ cd ∈ (cand k).map (mapToBox lo (Vec3.sub hi lo)),
          Vec3.vle lo cd ∧ Vec3.vle cd hi := by
  obtain ⟨h1, h2⟩ := sampleLoop_sound lo hi contains N cand hcand hlh fuel 0 []
    seeds (by simp) hrun
  refine ⟨h1, h2, ?_⟩
  intro k cd hcd
  obtain ⟨c, hc, rfl⟩ := List.mem_map.mp hcd
  exact mapToBox_mem lo hi c hlh (hcand k c hc)

/-- C7, witness: the cube scenario's sampling run. -/
theorem C7_witness :
    (∀ k, ∀ c ∈ centerCand k, inUnitCube c)
      ∧ Vec3.vle (cubeMesh ⟨0, 0, 0⟩ 1).lo (cubeMesh ⟨0, 0, 0⟩ 1).hi
      ∧ ([⟨0, 0, 0⟩] : List Vec3).length = 1
      ∧ (∀ s ∈ ([⟨0, 0, 0⟩] : List Vec3),
          (cubeMesh ⟨0, 0, 0⟩ 1).contains s = true
            ∧ Vec3.vle (cubeMesh ⟨0, 0, 0⟩ 1).lo s
            ∧ Vec3.vle s (cubeMesh ⟨0, 0, 0⟩ 1).hi)
      ∧ ∀ k, ∀ cd ∈ (centerCand k).map (mapToBox (cubeMesh ⟨0, 0, 0⟩ 1).lo
            (Vec3.sub (cubeMesh ⟨0, 0, 0⟩ 1).hi (cubeMesh ⟨0, 0, 0⟩ 1).lo)),
          Vec3.vle (cubeMesh ⟨0, 0, 0⟩ 1).lo cd
            ∧ Vec3.vle cd (cubeMesh ⟨0, 0, 0⟩ 1).hi := by
  have hcand : ∀ k, ∀ c ∈ centerCand k, inUnitCube c := by
    intro k c hc
    rw [show centerCand k = [⟨1 / 2, 1 / 2, 1 / 2⟩] from rfl,
      List.mem_singleton] at hc
    subst hc
    norm_num [inUnitCube]
  have hlh : Vec3.vle (cubeMesh ⟨0, 0, 0⟩ 1).lo (cubeMesh ⟨0, 0, 0⟩ 1).hi := by
    refine ⟨?_, ?_, ?_⟩ <;> norm_num [cubeMesh, cubeBox]
  obtain ⟨h1, h2, h3⟩ := C7_sampling_contract (cubeMesh ⟨0, 0, 0⟩ 1).lo
    (cubeMesh ⟨0, 0, 0⟩ 1).hi (cubeMesh ⟨0, 0, 0⟩ 1).contains 1 centerCand 1
    [⟨0, 0, 0⟩] hcand hlh (cube_sample ⟨0, 0, 0⟩ 1 one_pos)
  exact ⟨hcand, hlh, h1, h2, h3⟩

/-- C8, counterexample.  With `aabb_scale = 6/5` (valid: `> 1`) and a
mesh with bounds `[0,1]³` whose centroid `(9/10, 1/2, 1/2)` lies near
the `+x` face, the closure box has `xmin = 3/10 > 0`, so the point
`(0, 1/2, 1/2)` of the mesh's bounding box lies strictly outside one
closure half-space: the box does not contain all the input geometry. -/
theorem C8_counterexample :
    Vec3.vle skewMesh.lo ⟨0, 1 / 2, 1 / 2⟩
      ∧ Vec3.vle ⟨0, 1 / 2, 1 / 2⟩ skewMesh.hi
      ∧ ∃ h ∈ closureHalfspaces skewMesh (6 / 5),
          0 < evalHS h ⟨0, 1 / 2, 1 / 2⟩ := by
  refine ⟨⟨by norm_num [skewMesh], by norm_num [skewMesh],
      by norm_num [skewMesh]⟩,
    ⟨by norm_num [skewMesh], by norm_num [skewMesh], by norm_num [skewMesh]⟩,
    ?_⟩
  have hme : maxExtentOf skewMesh = 1 := by
    norm_num [maxExtentOf, skewMesh, maxExtent3, Vec3.sub]
  refine ⟨⟨⟨-1, 0, 0⟩,
    skewMesh.centroid.x - halfWidthOf skewMesh (6 / 5)⟩, ?_, ?_⟩
  · unfold closureHalfspaces aabbHalfspaces
    exact List.mem_cons_of_mem _ (List.mem_cons_self _ _)
  · unfold evalHS Vec3.dot halfWidthOf
    rw [hme]
    norm_num [skewMesh]

/-- C8, amended.  The closure half-spaces are exactly the six
axis-aligned planes of the cube centered on the mesh centroid with
half-width `0.5 · aabb_scale · max_extent`, computed once per run; but
strict containment of the geometry needs more than `aabb_scale > 1`: if
the centroid lies within the bounds, the largest extent is positive and
`aabb_scale > 2`, every point of the mesh's bounding box lies strictly
inside the closure box (for `1 < aabb_scale ≤ 2` this can fail, per the
counterexample). -/
theorem C8_closure_box {M : Type} (m : MeshModel M) (s : ℝ)
    (hc1 : Vec3.vle m.lo m.centroid) (hc2 : Vec3.vle m.centroid m.hi)
    (hext : 0 < maxExtentOf m) (hs : 2 < s) :
    (closureHalfspaces m s).length = 6
      ∧ closureHalfspaces m s
          = aabbHalfspaces m.centroid (1 / 2 * s * maxExtentOf m)
      ∧ ∀ xp, Vec3.vle m.lo xp → Vec3.vle xp m.hi →
          ∀ h ∈ closureHalfspaces m s, evalHS h xp < 0 := by
  have hex1 : m.hi.x - m.lo.x ≤ maxExtentOf m := le_max_left _ _
  have hex2 : m.hi.y - m.lo.y ≤ maxExtentOf m :=
    le_trans (le_max_left _ _) (le_max_right _ _)
  have hex3 : m.hi.z - m.lo.z ≤ maxExtentOf m :=
    le_trans (le_max_right _ _) (le_max_right _ _)
  have hhalf : maxExtentOf m < 1 / 2 * s * maxExtentOf m := by nlinarith
  obtain ⟨hc1x, hc1y, hc1z⟩ := hc1
  obtain ⟨hc2x, hc2y, hc2z⟩ := hc2
  refine ⟨rfl, rfl, ?_⟩
  intro xp hx1 hx2 h hmem
  obtain ⟨hx1x, hx1y, hx1z⟩ := hx1
  obtain ⟨hx2x, hx2y, hx2z⟩ := hx2
  simp only [closureHalfspaces, aabbHalfspaces, halfWidthOf,
    List.mem_cons, List.not_mem_nil, or_false] at hmem
  rcases hmem with rfl | rfl | rfl | rfl | rfl | rfl <;>
    simp only [evalHS, Vec3.dot] <;> linarith

/-- C8, witness: the unit cube at the origin with `aabb_scale = 3`. -/
theorem C8_witness :
    Vec3.vle (cubeMesh ⟨0, 0, 0⟩ 1).lo (cubeMesh ⟨0, 0, 0⟩ 1).centroid
      ∧ Vec3.vle (cubeMesh ⟨0, 0, 0⟩ 1).centroid (cubeMesh ⟨0, 0, 0⟩ 1).hi
      ∧ (0 < maxExtentOf (cubeMesh ⟨0, 0, 0⟩ 1)) ∧ ((2:ℝ) < 3)
      ∧ ((closureHalfspaces (cubeMesh ⟨0, 0, 0⟩ 1) 3).length = 6
          ∧ closureHalfspaces (cubeMesh ⟨0, 0, 0⟩ 1) 3
              = aabbHalfspaces (cubeMesh ⟨0, 0, 0⟩ 1).centroid
                  (1 / 2 * 3 * maxExtentOf (cubeMesh ⟨0, 0, 0⟩ 1))
          ∧ ∀ xp, Vec3.vle (cubeMesh ⟨0, 0, 0⟩ 1).lo xp →
              Vec3.vle xp (cubeMesh ⟨0, 0, 0⟩ 1).hi →
              ∀ h ∈ closureHalfspaces (cubeMesh ⟨0, 0, 0⟩ 1) 3,
                evalHS h xp < 0) := by
  have hc1 : Vec3.vle (cubeMesh ⟨0, 0, 0⟩ 1).lo
      (cubeMesh ⟨0, 0, 0⟩ 1).centroid := by
    refine ⟨?_, ?_, ?_⟩ <;> norm_num [cubeMesh, cubeBox]
  have hc2 : Vec3.vle (cubeMesh ⟨0, 0, 0⟩ 1).centroid
      (cubeMesh ⟨0, 0, 0⟩ 1).hi := by
    refine ⟨?_, ?_, ?_⟩ <;> norm_num [cubeMesh, cubeBox]
  have hext : 0 < maxExtentOf (cubeMesh ⟨0, 0, 0⟩ 1) := by
    rw [cube_maxExtent]
    norm_num
  exact ⟨hc1, hc2, hext, by norm_num,
    C8_closure_box (cubeMesh ⟨0, 0, 0⟩ 1) 3 hc1 hc2 hext (by norm_num)⟩

/-- C9.  Failure containment: (1) with a valid configuration and a
successful sampling step, the run returns a normal `ok` result for
*every* behaviour of the external geometry engines, so no per-cell or
per-shell failure aborts it, and a seed whose cell pipeline fails
contributes no output entry, the other entries being exactly those of
the surviving seeds; (2) a shell whose intersection raises is skipped,
the remaining shells contributing as before; (3) likewise a shell whose
intersection comes back empty; (4) a cell none of whose shell parts
survive is discarded (`none`). -/
theorem C9_failure_containment {M : Type} (O : GeomOracles M)
    (m : MeshModel M) (Nc : ℤ) (s : ℝ) (cand : ℕ → List Vec3) (fuel : ℕ)
    (seeds : List Vec3) (hN : 1 ≤ Nc) (hs : 1 < s)
    (hsamp : sampleLoop m.lo m.hi m.contains Nc.toNat cand 0 [] fuel
      = some seeds) :
    (∃ out : List M,
        voronoi_tessellate_mesh O m Nc s cand fuel = some (.ok out)
          ∧ ∀ i, processCell O m.shells (closureHalfspaces m s)
              (maxExtentOf m) seeds i = none →
            out = ((List.range Nc.toNat).filter fun j => j ≠ i).filterMap
              (processCell O m.shells (closureHalfspaces m s)
                (maxExtentOf m) seeds))
      ∧ (∀ (poly sh : M) (rest : List M), O.intersectMesh poly sh = none →
          clipParts O (sh :: rest) poly = clipParts O rest poly)
      ∧ (∀ (poly sh part : M) (rest : List M),
          O.intersectMesh poly sh = some part → O.isEmptyMesh part = true →
          clipParts O (sh :: rest) poly = clipParts O rest poly)
      ∧ ∀ (aabbHS : List HalfSpace) (maxExt : ℝ) (i : ℕ)
          (verts : List Vec3) (poly : M),
          solveStep O (cellHalfspaces maxExt aabbHS seeds i)
              (seedAt seeds i) = some verts →
          ¬ verts.length < 4 → O.convexHull verts = some poly →
          clipParts O m.shells poly = [] →
          processCell O m.shells aabbHS maxExt seeds i = none := by
  refine ⟨⟨_, tess_ok O m Nc s cand fuel seeds hN hs hsamp, ?_⟩, ?_, ?_, ?_⟩
  · intro i hnone
    exact filterMap_skip_none _ i hnone _
  · intro poly sh rest hint
    unfold clipParts
    rw [List.filterMap_cons, hint]
  · intro poly sh part rest hint hemp
    unfold clipParts
    rw [List.filterMap_cons, hint]
    simp [hemp]
  · intro aabbHS maxExt i verts poly hsol hlen hhull hclip
    unfold processCell
    rw [hsol]
    dsimp only
    rw [if_neg hlen, hhull]
    dsimp only
    rw [hclip]

/-- C9, witness: the cube run discharges the hypotheses. -/
theorem C9_witness :
    ((1:ℤ) ≤ 1) ∧ ((1:ℝ) < 2)
      ∧ sampleLoop (cubeMesh ⟨0, 0, 0⟩ 1).lo (cubeMesh ⟨0, 0, 0⟩ 1).hi
          (cubeMesh ⟨0, 0, 0⟩ 1).contains (1:ℤ).toNat centerCand 0 [] 1
          = some [⟨0, 0, 0⟩]
      ∧ ∃ out : List Box,
          voronoi_tessellate_mesh boxOracles (cubeMesh ⟨0, 0, 0⟩ 1) 1 2
              centerCand 1 = some (.ok out)
            ∧ ∀ i, processCell boxOracles (cubeMesh ⟨0, 0, 0⟩ 1).shells
                (closureHalfspaces (cubeMesh ⟨0, 0, 0⟩ 1) 2)
                (maxExtentOf (cubeMesh ⟨0, 0, 0⟩ 1)) [⟨0, 0, 0⟩] i = none →
              out = ((List.range (1:ℤ).toNat).filter fun j => j ≠ i).filterMap
                (processCell boxOracles (cubeMesh ⟨0, 0, 0⟩ 1).shells
                  (closureHalfspaces (cubeMesh ⟨0, 0, 0⟩ 1) 2)
                  (maxExtentOf (cubeMesh ⟨0, 0, 0⟩ 1)) [⟨0, 0, 0⟩]) :=
  ⟨le_rfl, by norm_num, cube_sample ⟨0, 0, 0⟩ 1 one_pos,
    (C9_failure_containment boxOracles (cubeMesh ⟨0, 0, 0⟩ 1) 1 2 centerCand 1
      [⟨0, 0, 0⟩] le_rfl (by norm_num) (cube_sample ⟨0, 0, 0⟩ 1 one_pos)).1⟩

/-- C10, counterexample.  For the seed pair `(0,0,0)`, `(1,0,0)` at
`max_extent = 1`, the point `x = (1/2 + 3750·mach, 0, 0)` satisfies the
biased bisector half-space but violates the exact one, so the biased
half-space is *not* a subset of the exact bisector half-space. -/
theorem C10_counterexample :
    evalHS (bisectorHS 1 ⟨0, 0, 0⟩ ⟨1, 0, 0⟩)
        ⟨1 / 2 + 3750 * machineEps, 0, 0⟩ ≤ 0
      ∧ 0 < evalHS (exactBisectorHS ⟨0, 0, 0⟩ ⟨1, 0, 0⟩)
          ⟨1 / 2 + 3750 * machineEps, 0, 0⟩ := by
  have hm := machineEps_pos
  constructor
  · simp only [evalHS, bisectorHS, bisA, bisD, Vec3.scale, Vec3.sub, Vec3.dot]
    rw [eps_example]
    linarith [machineEps_pos]
  · simp only [evalHS, exactBisectorHS, bisA, bisD, Vec3.scale, Vec3.sub,
      Vec3.dot]
    linarith [machineEps_pos]

/-- C10, amended.  The epsilon shift is non-negative whenever
`max_extent ≥ 0`, but the claimed inclusion is reversed: the biased
half-space `a·x + (d − eps) ≤ 0` is a superset of the exact bisector
half-space `a·x + d ≤ 0`, and consequently every point of a seed's
exact Voronoi region intersected with the closure box satisfies all of
that cell's stacked half-space constraints — the bias can only grow
cells, never shrink them. -/
theorem C10_bias_nonneg_grows_cells (maxExt : ℝ) (hme : 0 ≤ maxExt) :
    (∀ p q : Vec3, 0 ≤ bisEps maxExt p q)
      ∧ (∀ p q xp : Vec3, evalHS (exactBisectorHS p q) xp ≤ 0 →
          evalHS (bisectorHS maxExt p q) xp ≤ 0)
      ∧ ∀ (aabbHS : List HalfSpace) (seeds : List Vec3) (i : ℕ) (xp : Vec3),
          inExactRegion seeds i xp → inClosure aabbHS xp →
          inCellSystem maxExt aabbHS seeds i xp := by
  have heps := fun p q => bisEps_nonneg maxExt hme p q
  refine ⟨heps, ?_, ?_⟩
  · intro p q xp hx
    simp only [evalHS, exactBisectorHS, bisectorHS] at hx ⊢
    have := heps p q
    linarith
  · intro aabbHS seeds i xp hex hcl h hmem
    rcases List.mem_append.mp hmem with hb | ha
    · rw [mkBisectors_eq_map] at hb
      obtain ⟨j, hj, rfl⟩ := List.mem_map.mp hb
      obtain ⟨hjr, hjne⟩ := List.mem_filter.mp hj
      have hje := hex j (List.mem_range.mp hjr) (by simpa using hjne)
      simp only [evalHS, exactBisectorHS, bisectorHS] at hje ⊢
      have := heps (seedAt seeds i) (seedAt seeds j)
      linarith
    · exact hcl h ha

/-- C10, witness: `max_extent = 1`. -/
theorem C10_witness :
    ((0:ℝ) ≤ 1)
      ∧ ((∀ p q : Vec3, 0 ≤ bisEps 1 p q)
          ∧ (∀ p q xp : Vec3, evalHS (exactBisectorHS p q) xp ≤ 0 →
              evalHS (bisectorHS 1 p q) xp ≤ 0)
          ∧ ∀ (aabbHS : List HalfSpace) (seeds : List Vec3) (i : ℕ)
              (xp : Vec3),
              inExactRegion seeds i xp → inClosure aabbHS xp →
              inCellSystem 1 aabbHS seeds i xp) :=
  ⟨by norm_num, C10_bias_nonneg_grows_cells 1 (by norm_num)⟩

end

